import Mathlib

/-
  Verification of src/models/clip/model_utils.py (RSDiX-CLIP) against its
  natural-language specification.

  Real tensors are modelled as functions Fin m → Fin n → ℝ, with exact real
  arithmetic in place of floating point; the MSE and accuracy helpers, which
  use only field operations and comparisons, are modelled over ℚ so that
  concrete instances evaluate by decide.  torch reductions and broadcasts are
  spelled out elementwise.
-/

set_option maxHeartbeats 1000000

noncomputable section

open Classical

/-- Two-dimensional real tensor of shape (m, n). -/
abbrev Mat (m n : ℕ) := Fin m → Fin n → ℝ

/-- Entry-wise exponential q = torch.exp(-cost_mat / eps). -/
def expCost {m n : ℕ} (cost_mat : Mat m n) (eps : ℝ) : Mat m n :=
  fun i j => Real.exp (-cost_mat i j / eps)

/-- Division of a 2D tensor by its total sum over the last two axes,
q = q / q.sum(dim=[-2,-1], keepdim=True). -/
def globalNormalize {m n : ℕ} (q : Mat m n) : Mat m n :=
  fun i j => q i j / ∑ a, ∑ b, q a b

/-- Row update of the sinkhorn loop, q /= q.sum(dim=-1, keepdim=True) followed
by q *= r_prob, with the row marginal broadcasting along each row. -/
def rowStep {m n : ℕ} (r_prob : Fin m → ℝ) (q : Mat m n) : Mat m n :=
  fun i j => q i j / (∑ k, q i k) * r_prob i

/-- Column update of the sinkhorn loop, q /= q.sum(dim=-2, keepdim=True)
followed by q *= c_prob, with the column marginal broadcasting along columns. -/
def colStep {m n : ℕ} (c_prob : Fin n → ℝ) (q : Mat m n) : Mat m n :=
  fun i j => q i j / (∑ k, q k j) * c_prob j

/-- The for-loop of sinkhorn: niter repetitions of a row step followed by a
column step. -/
def sinkhornIter {m n : ℕ} (r_prob : Fin m → ℝ) (c_prob : Fin n → ℝ) (q : Mat m n) : ℕ → Mat m n
  | 0 => q
  | t + 1 => colStep c_prob (rowStep r_prob (sinkhornIter r_prob c_prob q t))

/-- Tensor view produced by unsqueeze(-1): an M-vector seen as an M×1 tensor. -/
def unsqueezeLast {m : ℕ} (v : Fin m → ℝ) : Fin m → Fin 1 → ℝ :=
  fun i _ => v i

/-- Tensor view produced by unsqueeze(-2): an N-vector seen as a 1×N tensor. -/
def unsqueezeSecondLast {n : ℕ} (v : Fin n → ℝ) : Fin 1 → Fin n → ℝ :=
  fun _ j => v j

/-- Row marginal multiplied into the iterate: the supplied marginal normalized
by its sum and unsqueezed on the last axis, (r_prob / r_prob.sum(dim=-1,
keepdim=True)).unsqueeze(-1), broadcast along row i; or the scalar 1/m when
r_prob is None. -/
def rowMarginal {m : ℕ} : Option (Fin m → ℝ) → Fin m → ℝ
  | some v => fun i => unsqueezeLast (fun k => v k / ∑ l, v l) i 0
  | none => fun _ => 1 / (m : ℝ)

/-- Column marginal multiplied into the iterate: the supplied marginal
normalized by its sum and unsqueezed on the second-to-last axis, broadcast
along column j; or the scalar 1/n when c_prob is None. -/
def colMarginal {n : ℕ} : Option (Fin n → ℝ) → Fin n → ℝ
  | some v => fun j => unsqueezeSecondLast (fun k => v k / ∑ l, v l) 0 j
  | none => fun _ => 1 / (n : ℝ)

/-- State of q in sinkhorn after the initial global normalization and the
niter row/column iterations, before the final division. -/
def sinkhornIterate {m n : ℕ} (cost_mat : Mat m n) (eps : ℝ) (niter : ℕ)
    (r_prob : Option (Fin m → ℝ)) (c_prob : Option (Fin n → ℝ)) : Mat m n :=
  sinkhornIter (rowMarginal r_prob) (colMarginal c_prob)
    (globalNormalize (expCost cost_mat eps)) niter

/-- Division of each row of a 2D tensor by its row sum: this is
q / q.sum(dim=1, keepdim=True) for a 2D q, since dim 1 of a 2D tensor is its
last axis. -/
def rowNormalize {m n : ℕ} (q : Mat m n) : Mat m n :=
  fun i j => q i j / ∑ k, q i k

/-- sinkhorn on a 2D cost matrix: the iterate followed by the final division
q / q.sum(dim=1, keepdim=True), which for a 2D tensor divides each row by its
row sum. -/
def sinkhorn {m n : ℕ} (cost_mat : Mat m n) (eps : ℝ) (niter : ℕ)
    (r_prob : Option (Fin m → ℝ)) (c_prob : Option (Fin n → ℝ)) : Mat m n :=
  rowNormalize (sinkhornIterate cost_mat eps niter r_prob c_prob)

/-- Value of an IEEE division of finite reals: either a finite real or one of
the special values produced by division by zero. -/
inductive FloatVal where
  | val (x : ℝ)
  | posInf
  | negInf
  | nan

/-- IEEE division of two finite reals: a finite quotient when the denominator
is nonzero, otherwise a NaN (0/0) or a signed infinity. -/
def floatDiv (a b : ℝ) : FloatVal :=
  if b = 0 then
    (if a = 0 then FloatVal.nan else if 0 < a then FloatVal.posInf else FloatVal.negInf)
  else FloatVal.val (a / b)

/-- Check torch.isnan(x) or torch.isinf(x) on a single value. -/
def FloatVal.isNanOrInf : FloatVal → Bool
  | FloatVal.val _ => false
  | _ => true

/-- The check _has_nan_or_inf applied to a marginal after its normalization
v / v.sum(dim=-1, keepdim=True), under IEEE division of finite reals. -/
def hasNanOrInfNormalized {k : ℕ} (v : Fin k → ℝ) : Prop :=
  ∃ i, (floatDiv (v i) (∑ l, v l)).isNanOrInf = true

/-- Predicate on an optional argument: holds when the argument is supplied and
satisfies P. -/
def optPredHolds {α : Type} (P : α → Prop) : Option α → Prop
  | some a => P a
  | none => False

/-- Failure signalled by the marginal assertions in sinkhorn. -/
inductive SinkhornError where
  | numericalError

/-- sinkhorn with its assertions made explicit: it fails with a NumericalError
when a supplied marginal still holds a NaN or Inf after its normalization, and
otherwise returns the sinkhorn output. -/
def sinkhornChecked {m n : ℕ} (cost_mat : Mat m n) (eps : ℝ) (niter : ℕ)
    (r_prob : Option (Fin m → ℝ)) (c_prob : Option (Fin n → ℝ)) :
    Except SinkhornError (Mat m n) :=
  if optPredHolds hasNanOrInfNormalized r_prob then Except.error SinkhornError.numericalError
  else if optPredHolds hasNanOrInfNormalized c_prob then Except.error SinkhornError.numericalError
  else Except.ok (sinkhorn cost_mat eps niter r_prob c_prob)

/-- Three-dimensional real tensor of shape (bsz, m, n). -/
abbrev Mat3 (bsz m n : ℕ) := Fin bsz → Fin m → Fin n → ℝ

/-- Row update of the sinkhorn loop on a 3D tensor (dim -1 sums run inside
each batch slice). -/
def rowStep3 {bsz m n : ℕ} (r_prob : Fin m → ℝ) (q : Mat3 bsz m n) : Mat3 bsz m n :=
  fun a i j => q a i j / (∑ k, q a i k) * r_prob i

/-- Column update of the sinkhorn loop on a 3D tensor. -/
def colStep3 {bsz m n : ℕ} (c_prob : Fin n → ℝ) (q : Mat3 bsz m n) : Mat3 bsz m n :=
  fun a i j => q a i j / (∑ k, q a k j) * c_prob j

/-- The for-loop of sinkhorn on a 3D tensor. -/
def sinkhornIter3 {bsz m n : ℕ} (r_prob : Fin m → ℝ) (c_prob : Fin n → ℝ) (q : Mat3 bsz m n) :
    ℕ → Mat3 bsz m n
  | 0 => q
  | t + 1 => colStep3 c_prob (rowStep3 r_prob (sinkhornIter3 r_prob c_prob q t))

/-- sinkhorn on a batched (3D) cost tensor with default (uniform) marginals.
The final division q / q.sum(dim=1, keepdim=True) sums over dim 1, which for a
3D tensor is the second-to-last axis, i.e. the column sums of each slice. -/
def sinkhorn3 {bsz m n : ℕ} (cost_mat : Mat3 bsz m n) (eps : ℝ) (niter : ℕ) : Mat3 bsz m n :=
  let q0 : Mat3 bsz m n := fun a i j => Real.exp (-cost_mat a i j / eps)
  let q1 : Mat3 bsz m n := fun a i j => q0 a i j / ∑ x, ∑ y, q0 a x y
  let q := sinkhornIter3 (fun _ => 1 / (m : ℝ)) (fun _ => 1 / (n : ℝ)) q1 niter
  fun a i j => q a i j / ∑ x, q a x j

/-- Division of a 2D tensor by its sum over the second-to-last axis (axis -2),
the operation the specification describes as the final sinkhorn step. -/
def divBySumAxisNeg2 {m n : ℕ} (q : Mat m n) : Mat m n :=
  fun i j => q i j / ∑ x, q x j

/-- Division of a 2D tensor by its sum over the last axis (axis -1). -/
def divBySumLastAxis {m n : ℕ} (q : Mat m n) : Mat m n :=
  fun i j => q i j / ∑ k, q i k

/-- Normalization of a vector to sum 1 along its axis, as the specification
words it. -/
def specNormalize {k : ℕ} (v : Fin k → ℝ) : Fin k → ℝ :=
  fun i => v i / ∑ l, v l

/-- Sinkhorn iterate written from the specification text: initial matrix
exp(-cost/eps) normalized so total mass over the last two dims is 1; a
supplied marginal normalized to sum to 1 along its axis, an unsupplied
marginal the uniform 1/M (rows) or 1/N (columns); then n_iters repetitions of
the row step (divide each row by its row-sum, multiply by the target row
marginal) followed by the column step, in that order. -/
def sinkhornIterateSpec {m n : ℕ} (cost_mat : Mat m n) (eps : ℝ) (niter : ℕ)
    (r_prob : Option (Fin m → ℝ)) (c_prob : Option (Fin n → ℝ)) : Mat m n :=
  let q1 : Mat m n :=
    fun i j => Real.exp (-cost_mat i j / eps) / ∑ a, ∑ b, Real.exp (-cost_mat a b / eps)
  let r : Fin m → ℝ :=
    match r_prob with
    | some v => specNormalize v
    | none => fun _ => 1 / (m : ℝ)
  let c : Fin n → ℝ :=
    match c_prob with
    | some v => specNormalize v
    | none => fun _ => 1 / (n : ℝ)
  (fun q : Mat m n =>
    (fun i j => (fun i' j' => q i' j' / (∑ k, q i' k) * r i') i j /
      (∑ k, (fun i' j' => q i' j' / (∑ k', q i' k') * r i') k j) * c j))^[niter] q1

/-- compute_similarities: the four pairwise dot-product similarity matrices,
each a torch.matmul of a batch with a transposed batch. -/
def compute_similarities {b1 b2 dEmb : ℕ} (i_emb : Fin b1 → Fin dEmb → ℝ)
    (t_emb : Fin b2 → Fin dEmb → ℝ) :
    (Fin b1 → Fin b1 → ℝ) × (Fin b2 → Fin b2 → ℝ) × (Fin b1 → Fin b2 → ℝ) × (Fin b2 → Fin b1 → ℝ) :=
  (fun i j => ∑ k, i_emb i k * i_emb j k,
   fun i j => ∑ k, t_emb i k * t_emb j k,
   fun i j => ∑ k, i_emb i k * t_emb j k,
   fun i j => ∑ k, t_emb i k * i_emb j k)

/-- Product of a batch with the transpose of another batch:
(A Bᵀ) i j = ∑ k, A i k * B j k. -/
def matmulT {p q dEmb : ℕ} (A : Fin p → Fin dEmb → ℝ) (B : Fin q → Fin dEmb → ℝ) :
    Fin p → Fin q → ℝ :=
  fun i j => ∑ k, A i k * B j k

/-- Diagonal mask torch.eye(b, b) * remove_diag * 1e2. -/
def diagMask (b : ℕ) (remove_diag : ℝ) : Mat b b :=
  fun i j => (if i = j then (1 : ℝ) else 0) * remove_diag * 100

/-- Cost matrix of the image branch, -(sim_ii + sim_tt + sim_it), where sim_ii
and sim_tt have the diagonal mask subtracted and are scaled by their
coefficients. -/
def imagesCostMat {b dEmb : ℕ} (i_emb t_emb : Fin b → Fin dEmb → ℝ)
    (ii_coeff tt_coeff remove_diag : ℝ) : Mat b b :=
  fun i j =>
    -((((compute_similarities i_emb t_emb).1 i j - diagMask b remove_diag i j) * ii_coeff) +
      (((compute_similarities i_emb t_emb).2.1 i j - diagMask b remove_diag i j) * tt_coeff) +
      (compute_similarities i_emb t_emb).2.2.1 i j)

/-- Cost matrix of the text branch, -(sim_ii + sim_tt + sim_ti). -/
def textCostMat {b dEmb : ℕ} (i_emb t_emb : Fin b → Fin dEmb → ℝ)
    (ii_coeff tt_coeff remove_diag : ℝ) : Mat b b :=
  fun i j =>
    -((((compute_similarities i_emb t_emb).1 i j - diagMask b remove_diag i j) * ii_coeff) +
      (((compute_similarities i_emb t_emb).2.1 i j - diagMask b remove_diag i j) * tt_coeff) +
      (compute_similarities i_emb t_emb).2.2.2 i j)

/-- compute_teacher_targets: sinkhorn on the two cost matrices, then a row
normalization of each result (q /= q.sum(dim=1, keepdim=True) on a 2D q), and
in sigmoid mode the affine rescaling x*2-1 after that row normalization. -/
def compute_teacher_targets {b dEmb : ℕ}
    (teacher_images_embs teacher_text_embs : Fin b → Fin dEmb → ℝ)
    (ii_coeff tt_coeff sinkhorn_lambda : ℝ) (sinkhorn_iter : ℕ) (remove_diag : ℝ)
    (sigmoid_target : Bool) : Mat b b × Mat b b :=
  let images_target_prob :=
    sinkhorn (imagesCostMat teacher_images_embs teacher_text_embs ii_coeff tt_coeff remove_diag)
      sinkhorn_lambda sinkhorn_iter none none
  let text_target_prob :=
    sinkhorn (textCostMat teacher_images_embs teacher_text_embs ii_coeff tt_coeff remove_diag)
      sinkhorn_lambda sinkhorn_iter none none
  if sigmoid_target then
    (fun i j => rowNormalize images_target_prob i j * 2 - 1,
     fun i j => rowNormalize text_target_prob i j * 2 - 1)
  else
    (rowNormalize images_target_prob, rowNormalize text_target_prob)

end

/-- Two-dimensional rational tensor of shape (m, n): exact model of the MSE
and accuracy helpers, which use only field operations and comparisons. -/
abbrev QMat (m n : ℕ) := Fin m → Fin n → ℚ

/-- Reduction keyword. -/
def redMean : String := "mean"

/-- Reduction keyword. -/
def redAverage : String := "average"

/-- Reduction keyword. -/
def redAvg : String := "avg"

/-- Reduction keyword. -/
def redSum : String := "sum"

/-- Reduction keyword. -/
def redAdd : String := "add"

/-- Reduction keyword. -/
def redNone : String := "none"

/-- The frozenset REDUCTIONS of allowed reduction keywords. -/
def REDUCTIONS : List String := [redMean, redAverage, redAvg, redSum, redAdd, redNone]

/-- torch.nn.MSELoss() with its default mean reduction: the mean of the
squared entrywise differences. -/
def mseLoss {m n : ℕ} (a b : QMat m n) : ℚ :=
  (∑ i, ∑ j, (a i j - b i j) ^ 2) / (m * n)

/-- Result of compute_mse_similarities: a reduced scalar or the unreduced
3-element tensor. -/
inductive MseOut where
  | scalar (x : ℚ)
  | vec (v : Fin 3 → ℚ)

/-- InvalidArgumentError carrying the allowed set and the given keyword. -/
inductive MseErr where
  | invalidArgument (allowed : List String) (given : String)

/-- compute_mse_similarities: checks the reduction keyword, folds "average"
into "mean", stacks the three MSE values, and reduces.  The "sum"/"add"
branch of the source also computes torch.mean, which is reproduced here. -/
def compute_mse_similarities {m n : ℕ}
    (image_image_similarities image_text_similarities : QMat m n)
    (text_text_similarities_clip text_text_similarities_st : QMat m n)
    (reduction : String) : Except MseErr MseOut :=
  if reduction ∉ REDUCTIONS then Except.error (MseErr.invalidArgument REDUCTIONS reduction)
  else
    let red := if reduction = redAverage then redMean else reduction
    let ii_mse := mseLoss image_image_similarities text_text_similarities_st
    let it_mse := mseLoss image_text_similarities text_text_similarities_st
    let tt_mse := mseLoss text_text_similarities_clip text_text_similarities_st
    let mse_tensor : Fin 3 → ℚ :=
      fun i => if i.val = 0 then ii_mse else if i.val = 1 then it_mse else tt_mse
    if red = redMean ∨ red = redAverage ∨ red = redAvg then
      Except.ok (MseOut.scalar ((∑ i, mse_tensor i) / 3))
    else if red = redSum ∨ red = redAdd then
      Except.ok (MseOut.scalar ((∑ i, mse_tensor i) / 3))
    else Except.ok (MseOut.vec mse_tensor)

/-- torch.argmax of a one-dimensional tensor: the index of the first maximal
entry. -/
def argmax {k : ℕ} (v : Fin (k + 1) → ℚ) : Fin (k + 1) :=
  (List.finRange (k + 1)).foldl (fun best i => if v best < v i then i else best) 0

/-- compute_accuracy: ground truth is the identity permutation; acc_i counts
rows whose argmax over columns equals the row index, acc_t counts columns
whose argmax over rows equals the column index; the result is
(acc_i + acc_t) / 2 / batch_size under true division. -/
def compute_accuracy {k : ℕ} (images_logits : Fin (k + 1) → Fin (k + 1) → ℚ)
    (batch_size : ℚ) : ℚ :=
  let acc_i := (Finset.univ.filter fun i => argmax (fun j => images_logits i j) = i).card
  let acc_t := (Finset.univ.filter fun j => argmax (fun i => images_logits i j) = j).card
  ((acc_i : ℚ) + (acc_t : ℚ)) / 2 / batch_size

/-! Helper lemmas: positivity and normalization facts about the sinkhorn
pipeline. -/

theorem expCost_pos {m n : ℕ} (cost_mat : Mat m n) (eps : ℝ) (i : Fin m) (j : Fin n) :
    0 < expCost cost_mat eps i j :=
  Real.exp_pos _

theorem globalNormalize_pos {m n : ℕ} (q : Mat m n) (hq : ∀ i j, 0 < q i j)
    (i : Fin m) (j : Fin n) : 0 < globalNormalize q i j := by
  have htot : 0 < ∑ a, ∑ b, q a b :=
    Finset.sum_pos (fun a _ => Finset.sum_pos (fun b _ => hq a b) ⟨j, Finset.mem_univ j⟩)
      ⟨i, Finset.mem_univ i⟩
  exact div_pos (hq i j) htot

theorem rowStep_pos {m n : ℕ} (r_prob : Fin m → ℝ) (q : Mat m n)
    (hr : ∀ i, 0 < r_prob i) (hq : ∀ i j, 0 < q i j) :
    ∀ i j, 0 < rowStep r_prob q i j := by
  intro i j
  have hs : 0 < ∑ k, q i k := Finset.sum_pos (fun k _ => hq i k) ⟨j, Finset.mem_univ j⟩
  exact mul_pos (div_pos (hq i j) hs) (hr i)

theorem colStep_pos {m n : ℕ} (c_prob : Fin n → ℝ) (q : Mat m n)
    (hc : ∀ j, 0 < c_prob j) (hq : ∀ i j, 0 < q i j) :
    ∀ i j, 0 < colStep c_prob q i j := by
  intro i j
  have hs : 0 < ∑ k, q k j := Finset.sum_pos (fun k _ => hq k j) ⟨i, Finset.mem_univ i⟩
  exact mul_pos (div_pos (hq i j) hs) (hc j)

theorem sinkhornIter_pos {m n : ℕ} (r_prob : Fin m → ℝ) (c_prob : Fin n → ℝ) (q : Mat m n)
    (hr : ∀ i, 0 < r_prob i) (hc : ∀ j, 0 < c_prob j) (hq : ∀ i j, 0 < q i j) :
    ∀ t i j, 0 < sinkhornIter r_prob c_prob q t i j := by
  intro t
  induction t with
  | zero => exact hq
  | succ s ih => exact colStep_pos c_prob _ hc (rowStep_pos r_prob _ hr ih)

theorem rowMarginal_none_pos {m : ℕ} (i : Fin m) :
    0 < rowMarginal (none : Option (Fin m → ℝ)) i := by
  have hm : (0 : ℝ) < (m : ℝ) := by exact_mod_cast i.pos
  simpa [rowMarginal] using one_div_pos.mpr hm

theorem colMarginal_none_pos {n : ℕ} (j : Fin n) :
    0 < colMarginal (none : Option (Fin n → ℝ)) j := by
  have hn : (0 : ℝ) < (n : ℝ) := by exact_mod_cast j.pos
  simpa [colMarginal] using one_div_pos.mpr hn

theorem sinkhornIterate_pos {m n : ℕ} (cost_mat : Mat m n) (eps : ℝ) (niter : ℕ)
    (i : Fin m) (j : Fin n) :
    0 < sinkhornIterate cost_mat eps niter none none i j :=
  sinkhornIter_pos _ _ _ (fun i' => rowMarginal_none_pos i') (fun j' => colMarginal_none_pos j')
    (fun i' j' => globalNormalize_pos _ (fun a b => expCost_pos cost_mat eps a b) i' j') niter i j

theorem rowNormalize_sum_one {m n : ℕ} (q : Mat m n) (i : Fin m)
    (h : (∑ k, q i k) ≠ 0) : (∑ j, rowNormalize q i j) = 1 := by
  unfold rowNormalize
  rw [← Finset.sum_div, div_self h]

theorem rowNormalize_pos {m n : ℕ} (q : Mat m n) (hq : ∀ a b, 0 < q a b)
    (i : Fin m) (j : Fin n) : 0 < rowNormalize q i j :=
  div_pos (hq i j) (Finset.sum_pos (fun k _ => hq i k) ⟨j, Finset.mem_univ j⟩)

theorem rowNormalize_le_one {m n : ℕ} (q : Mat m n) (hq : ∀ a b, 0 < q a b)
    (i : Fin m) (j : Fin n) : rowNormalize q i j ≤ 1 := by
  have hs : 0 < ∑ k, q i k := Finset.sum_pos (fun k _ => hq i k) ⟨j, Finset.mem_univ j⟩
  show q i j / (∑ k, q i k) ≤ 1
  rw [div_le_one hs]
  exact Finset.single_le_sum (fun k _ => le_of_lt (hq i k)) (Finset.mem_univ j)

theorem sinkhorn_pos {m n : ℕ} (cost_mat : Mat m n) (eps : ℝ) (niter : ℕ)
    (i : Fin m) (j : Fin n) : 0 < sinkhorn cost_mat eps niter none none i j :=
  rowNormalize_pos _ (fun a b => sinkhornIterate_pos cost_mat eps niter a b) i j

theorem sinkhorn_row_sum {m n : ℕ} (cost_mat : Mat m n) (eps : ℝ) (niter : ℕ)
    (hn : 0 < n) (i : Fin m) : (∑ j, sinkhorn cost_mat eps niter none none i j) = 1 := by
  apply rowNormalize_sum_one
  exact ne_of_gt (Finset.sum_pos (fun k _ => sinkhornIterate_pos cost_mat eps niter i k)
    ⟨⟨0, hn⟩, Finset.mem_univ _⟩)

theorem rowNormalize_sinkhorn_sum_one {m n : ℕ} (cost_mat : Mat m n) (lam : ℝ) (t : ℕ)
    (hn : 0 < n) (i : Fin m) :
    (∑ j, rowNormalize (sinkhorn cost_mat lam t none none) i j) = 1 := by
  apply rowNormalize_sum_one
  exact ne_of_gt (Finset.sum_pos (fun k _ => sinkhorn_pos cost_mat lam t i k)
    ⟨⟨0, hn⟩, Finset.mem_univ _⟩)

theorem rowNormalize_sinkhorn_mem {m n : ℕ} (cost_mat : Mat m n) (lam : ℝ) (t : ℕ)
    (i : Fin m) (j : Fin n) :
    0 < rowNormalize (sinkhorn cost_mat lam t none none) i j ∧
      rowNormalize (sinkhorn cost_mat lam t none none) i j ≤ 1 :=
  ⟨rowNormalize_pos _ (fun a b => sinkhorn_pos cost_mat lam t a b) i j,
   rowNormalize_le_one _ (fun a b => sinkhorn_pos cost_mat lam t a b) i j⟩

/-- C3: for every 2D cost matrix of finite real entries with eps > 0,
n_iters ≥ 1 and no marginals supplied, each row of the matrix returned by
sinkhorn sums to 1 exactly (the exact-arithmetic form of approximately 1),
provided the matrix has at least one column. -/
theorem sinkhorn_rows_sum_to_one (m n : ℕ) (cost_mat : Mat m n) (eps : ℝ) (niter : ℕ)
    (heps : 0 < eps) (hiter : 1 ≤ niter) (hn : 0 < n) :
    ∀ i : Fin m, (∑ j, sinkhorn cost_mat eps niter none none i j) = 1 :=
  fun i => sinkhorn_row_sum cost_mat eps niter hn i

/-- Witness for C3 at the 1×1 zero cost matrix, eps = 1, one iteration. -/
theorem sinkhorn_rows_sum_to_one_witness :
    (0 : ℝ) < 1 ∧ (1 : ℕ) ≤ 1 ∧ (0 : ℕ) < 1 ∧
      ∀ i : Fin 1, (∑ j, sinkhorn ((fun _ _ => 0) : Mat 1 1) 1 1 none none i j) = 1 :=
  ⟨by norm_num, le_refl 1, Nat.one_pos,
    sinkhorn_rows_sum_to_one 1 1 (fun _ _ => 0) 1 1 (by norm_num) (le_refl 1) Nat.one_pos⟩

/-- C10: with finite real cost entries, eps > 0 and n_iters ≥ 1, every entry
of the matrix returned by sinkhorn (no marginals) is strictly positive; hence
in non-sigmoid mode every entry of both compute_teacher_targets matrices lies
in [0, 1] and each row sums to 1 (a probability distribution per row). -/
theorem sinkhorn_positive_and_teacher_targets_prob :
    (∀ (m n : ℕ) (cost_mat : Mat m n) (eps : ℝ) (niter : ℕ), 0 < eps → 1 ≤ niter →
      ∀ (i : Fin m) (j : Fin n), 0 < sinkhorn cost_mat eps niter none none i j) ∧
    (∀ (b dEmb : ℕ) (ie te : Fin b → Fin dEmb → ℝ) (iic ttc lam : ℝ) (t : ℕ) (rd : ℝ),
      0 < lam → 1 ≤ t →
      (∀ i j : Fin b,
        (0 ≤ (compute_teacher_targets ie te iic ttc lam t rd false).1 i j ∧
          (compute_teacher_targets ie te iic ttc lam t rd false).1 i j ≤ 1) ∧
        (0 ≤ (compute_teacher_targets ie te iic ttc lam t rd false).2 i j ∧
          (compute_teacher_targets ie te iic ttc lam t rd false).2 i j ≤ 1)) ∧
      (∀ i : Fin b,
        (∑ j, (compute_teacher_targets ie te iic ttc lam t rd false).1 i j) = 1 ∧
        (∑ j, (compute_teacher_targets ie te iic ttc lam t rd false).2 i j) = 1)) := by
  constructor
  · intro m n cost_mat eps niter _ _ i j
    exact sinkhorn_pos cost_mat eps niter i j
  · intro b dEmb ie te iic ttc lam t rd _ _
    have h1 : (compute_teacher_targets ie te iic ttc lam t rd false).1 =
        rowNormalize (sinkhorn (imagesCostMat ie te iic ttc rd) lam t none none) := rfl
    have h2 : (compute_teacher_targets ie te iic ttc lam t rd false).2 =
        rowNormalize (sinkhorn (textCostMat ie te iic ttc rd) lam t none none) := rfl
    constructor
    · intro i j
      rw [h1, h2]
      refine ⟨⟨le_of_lt (rowNormalize_sinkhorn_mem _ lam t i j).1,
        (rowNormalize_sinkhorn_mem _ lam t i j).2⟩,
        ⟨le_of_lt (rowNormalize_sinkhorn_mem _ lam t i j).1,
        (rowNormalize_sinkhorn_mem _ lam t i j).2⟩⟩
    · intro i
      rw [h1, h2]
      exact ⟨rowNormalize_sinkhorn_sum_one _ lam t i.pos i,
        rowNormalize_sinkhorn_sum_one _ lam t i.pos i⟩

/-- Witness for C10 at the 1×1 zero cost matrix and 1×1 zero embedding
batches, with eps = 1 and one iteration. -/
theorem sinkhorn_positive_and_teacher_targets_prob_witness :
    ((0 : ℝ) < 1 ∧ (1 : ℕ) ≤ 1 ∧
      ∀ (i j : Fin 1), 0 < sinkhorn ((fun _ _ => 0) : Mat 1 1) 1 1 none none i j) ∧
    ((0 : ℝ) < 1 ∧ (1 : ℕ) ≤ 1 ∧
      ∀ i : Fin 1,
        (∑ j, (compute_teacher_targets (fun _ _ => (0 : ℝ)) ((fun _ _ => 0) : Fin 1 → Fin 1 → ℝ)
          1 1 1 1 0 false).1 i j) = 1 ∧
        (∑ j, (compute_teacher_targets (fun _ _ => (0 : ℝ)) ((fun _ _ => 0) : Fin 1 → Fin 1 → ℝ)
          1 1 1 1 0 false).2 i j) = 1) :=
  ⟨⟨by norm_num, le_refl 1,
    sinkhorn_positive_and_teacher_targets_prob.1 1 1 (fun _ _ => 0) 1 1 (by norm_num) (le_refl 1)⟩,
   ⟨by norm_num, le_refl 1,
    (sinkhorn_positive_and_teacher_targets_prob.2 1 1 (fun _ _ => 0) (fun _ _ => 0) 1 1 1 1 0
      (by norm_num) (le_refl 1)).2⟩⟩

/-- C2: for equal-sized teacher embedding batches and any coefficients, with
eps > 0 and any iteration count, in non-sigmoid mode each row of both returned
matrices sums to 1 exactly, and in sigmoid mode every entry of both returned
matrices lies in [-1, 1]. -/
theorem compute_teacher_targets_output_bounds
    (b dEmb : ℕ) (ie te : Fin b → Fin dEmb → ℝ) (iic ttc lam : ℝ) (t : ℕ) (rd : ℝ)
    (hlam : 0 < lam) :
    ((∀ i : Fin b, (∑ j, (compute_teacher_targets ie te iic ttc lam t rd false).1 i j) = 1) ∧
     (∀ i : Fin b, (∑ j, (compute_teacher_targets ie te iic ttc lam t rd false).2 i j) = 1)) ∧
    ((∀ i j : Fin b, -1 ≤ (compute_teacher_targets ie te iic ttc lam t rd true).1 i j ∧
        (compute_teacher_targets ie te iic ttc lam t rd true).1 i j ≤ 1) ∧
     (∀ i j : Fin b, -1 ≤ (compute_teacher_targets ie te iic ttc lam t rd true).2 i j ∧
        (compute_teacher_targets ie te iic ttc lam t rd true).2 i j ≤ 1)) := by
  have h1 : (compute_teacher_targets ie te iic ttc lam t rd false).1 =
      rowNormalize (sinkhorn (imagesCostMat ie te iic ttc rd) lam t none none) := rfl
  have h2 : (compute_teacher_targets ie te iic ttc lam t rd false).2 =
      rowNormalize (sinkhorn (textCostMat ie te iic ttc rd) lam t none none) := rfl
  have h3 : ∀ i j : Fin b, (compute_teacher_targets ie te iic ttc lam t rd true).1 i j =
      rowNormalize (sinkhorn (imagesCostMat ie te iic ttc rd) lam t none none) i j * 2 - 1 :=
    fun i j => rfl
  have h4 : ∀ i j : Fin b, (compute_teacher_targets ie te iic ttc lam t rd true).2 i j =
      rowNormalize (sinkhorn (textCostMat ie te iic ttc rd) lam t none none) i j * 2 - 1 :=
    fun i j => rfl
  refine ⟨⟨?_, ?_⟩, ?_, ?_⟩
  · intro i
    rw [h1]
    exact rowNormalize_sinkhorn_sum_one _ lam t i.pos i
  · intro i
    rw [h2]
    exact rowNormalize_sinkhorn_sum_one _ lam t i.pos i
  · intro i j
    rw [h3 i j]
    have hb := rowNormalize_sinkhorn_mem (imagesCostMat ie te iic ttc rd) lam t i j
    constructor
    · linarith [hb.1]
    · linarith [hb.2]
  · intro i j
    rw [h4 i j]
    have hb := rowNormalize_sinkhorn_mem (textCostMat ie te iic ttc rd) lam t i j
    constructor
    · linarith [hb.1]
    · linarith [hb.2]

/-- Witness for C2 at 1×1 zero embedding batches, unit coefficients, eps = 1
and one iteration. -/
theorem compute_teacher_targets_output_bounds_witness :
    (0 : ℝ) < 1 ∧
      (((∀ i : Fin 1, (∑ j, (compute_teacher_targets (fun _ _ => (0 : ℝ))
            ((fun _ _ => 0) : Fin 1 → Fin 1 → ℝ) 1 1 1 1 0 false).1 i j) = 1) ∧
        (∀ i : Fin 1, (∑ j, (compute_teacher_targets (fun _ _ => (0 : ℝ))
            ((fun _ _ => 0) : Fin 1 → Fin 1 → ℝ) 1 1 1 1 0 false).2 i j) = 1)) ∧
       ((∀ i j : Fin 1, -1 ≤ (compute_teacher_targets (fun _ _ => (0 : ℝ))
            ((fun _ _ => 0) : Fin 1 → Fin 1 → ℝ) 1 1 1 1 0 true).1 i j ∧
          (compute_teacher_targets (fun _ _ => (0 : ℝ))
            ((fun _ _ => 0) : Fin 1 → Fin 1 → ℝ) 1 1 1 1 0 true).1 i j ≤ 1) ∧
        (∀ i j : Fin 1, -1 ≤ (compute_teacher_targets (fun _ _ => (0 : ℝ))
            ((fun _ _ => 0) : Fin 1 → Fin 1 → ℝ) 1 1 1 1 0 true).2 i j ∧
          (compute_teacher_targets (fun _ _ => (0 : ℝ))
            ((fun _ _ => 0) : Fin 1 → Fin 1 → ℝ) 1 1 1 1 0 true).2 i j ≤ 1))) :=
  ⟨by norm_num,
    compute_teacher_targets_output_bounds 1 1 (fun _ _ => 0) (fun _ _ => 0) 1 1 1 1 0 (by norm_num)⟩

/-- C8: compute_similarities returns the four products with a transposed
batch, sim_ti is the transpose of sim_it, and sim_ii and sim_tt are symmetric
matrices. -/
theorem compute_similarities_products_and_symmetry
    (b1 b2 dEmb : ℕ) (i_emb : Fin b1 → Fin dEmb → ℝ) (t_emb : Fin b2 → Fin dEmb → ℝ) :
    (compute_similarities i_emb t_emb).1 = matmulT i_emb i_emb ∧
    (compute_similarities i_emb t_emb).2.1 = matmulT t_emb t_emb ∧
    (compute_similarities i_emb t_emb).2.2.1 = matmulT i_emb t_emb ∧
    (∀ (i : Fin b2) (j : Fin b1),
      (compute_similarities i_emb t_emb).2.2.2 i j = (compute_similarities i_emb t_emb).2.2.1 j i) ∧
    (∀ i j : Fin b1,
      (compute_similarities i_emb t_emb).1 i j = (compute_similarities i_emb t_emb).1 j i) ∧
    (∀ i j : Fin b2,
      (compute_similarities i_emb t_emb).2.1 i j = (compute_similarities i_emb t_emb).2.1 j i) := by
  refine ⟨rfl, rfl, rfl, ?_, ?_, ?_⟩ <;>
  · intro i j
    simp only [compute_similarities]
    exact Finset.sum_congr rfl (fun k _ => mul_comm _ _)

/-- Equality between the structural recursion of the sinkhorn loop and the
iterate of the composed row-then-column step. -/
theorem sinkhornIter_eq_iterate {m n : ℕ} (r : Fin m → ℝ) (c : Fin n → ℝ) (q : Mat m n) :
    ∀ t, sinkhornIter r c q t = (fun p => colStep c (rowStep r p))^[t] q := by
  intro t
  induction t with
  | zero => rfl
  | succ s ih =>
    rw [Function.iterate_succ_apply']
    show colStep c (rowStep r (sinkhornIter r c q s)) = _
    rw [ih]

/-- C9: the sinkhorn iterate of the source equals the iterate described by the
specification — initial matrix exp(-cost/eps) normalized by its total mass,
marginals normalized to sum 1 (uniform 1/M and 1/N when unsupplied), and
n_iters row-then-column steps in that order. -/
theorem sinkhorn_iterate_matches_spec
    (m n : ℕ) (cost_mat : Mat m n) (eps : ℝ) (niter : ℕ)
    (r_prob : Option (Fin m → ℝ)) (c_prob : Option (Fin n → ℝ)) :
    sinkhornIterate cost_mat eps niter r_prob c_prob =
      sinkhornIterateSpec cost_mat eps niter r_prob c_prob := by
  unfold sinkhornIterate sinkhornIterateSpec
  rw [sinkhornIter_eq_iterate]
  have hiter : ∀ (f g : Mat m n → Mat m n) (a b : Mat m n),
      f = g → a = b → f^[niter] a = g^[niter] b := by
    intro f g a b h1 h2
    rw [h1, h2]
  cases r_prob <;> cases c_prob <;>
  · apply hiter
    · funext p i j
      simp only [rowMarginal, colMarginal, specNormalize, unsqueezeLast, unsqueezeSecondLast,
        rowStep, colStep]
    · funext i j
      simp only [globalNormalize, expCost]

/-- C4: sinkhorn fails with a NumericalError exactly when a supplied row or
column marginal still contains a NaN or Inf value after its normalization, and
with no marginals supplied no such check fires and the call returns the
sinkhorn output. -/
theorem sinkhorn_numerical_error_iff
    (m n : ℕ) (cost_mat : Mat m n) (eps : ℝ) (niter : ℕ)
    (r_prob : Option (Fin m → ℝ)) (c_prob : Option (Fin n → ℝ)) :
    (sinkhornChecked cost_mat eps niter r_prob c_prob =
        Except.error SinkhornError.numericalError ↔
      optPredHolds hasNanOrInfNormalized r_prob ∨ optPredHolds hasNanOrInfNormalized c_prob) ∧
    sinkhornChecked cost_mat eps niter none none =
      Except.ok (sinkhorn cost_mat eps niter none none) := by
  constructor
  · by_cases h1 : optPredHolds hasNanOrInfNormalized r_prob
    · simp [sinkhornChecked, h1]
    · by_cases h2 : optPredHolds hasNanOrInfNormalized c_prob
      · simp [sinkhornChecked, h1, h2]
      · simp [sinkhornChecked, h1, h2]
  · simp [sinkhornChecked, optPredHolds]

/-- Batched sinkhorn iterations act independently on each batch slice. -/
theorem sinkhornIter3_slice {bsz m n : ℕ} (r : Fin m → ℝ) (c : Fin n → ℝ)
    (q : Mat3 bsz m n) : ∀ (t : ℕ) (a : Fin bsz),
    sinkhornIter3 r c q t a = sinkhornIter r c (q a) t := by
  intro t
  induction t with
  | zero => intro a; rfl
  | succ s ih =>
    intro a
    show colStep3 c (rowStep3 r (sinkhornIter3 r c q s)) a = _
    funext i j
    simp only [colStep3, rowStep3, sinkhornIter, colStep, rowStep, ih]

/-- C1 amended: the final step of sinkhorn divides the iterated matrix by its
sum over positional dim 1.  For a 2D input dim 1 is the last axis, so the
returned value is the iterate divided by its row sums (not its sums over axis
-2); for a 3D input (one leading batch dimension) dim 1 is the second-to-last
axis, so each returned batch slice is the iterate of that slice divided by its
sums over axis -2, as the claim states. -/
theorem sinkhorn_final_step_dim1 :
    (∀ (m n : ℕ) (cost_mat : Mat m n) (eps : ℝ) (niter : ℕ)
        (r_prob : Option (Fin m → ℝ)) (c_prob : Option (Fin n → ℝ)),
      sinkhorn cost_mat eps niter r_prob c_prob =
        divBySumLastAxis (sinkhornIterate cost_mat eps niter r_prob c_prob)) ∧
    (∀ (bsz m n : ℕ) (cost_mat : Mat3 bsz m n) (eps : ℝ) (niter : ℕ) (a : Fin bsz),
      sinkhorn3 cost_mat eps niter a =
        divBySumAxisNeg2 (sinkhornIterate (cost_mat a) eps niter none none)) := by
  constructor
  · intro m n cost_mat eps niter r_prob c_prob
    rfl
  · intro bsz m n cost_mat eps niter a
    funext i j
    simp only [sinkhorn3, divBySumAxisNeg2, sinkhornIterate, rowMarginal, colMarginal,
      globalNormalize, expCost, sinkhornIter3_slice]
    rfl

/-- C1 counterexample: for the all-zero 1×2 cost matrix (a 2D input) with
eps = 1 and one iteration, the value returned by sinkhorn differs from the
iterated matrix divided by its sum over axis -2: the source divides by the sum
over dim 1, which for a 2D tensor is the last axis. -/
theorem sinkhorn_final_axis_neg2_counterexample :
    sinkhorn ((fun _ _ => 0) : Mat 1 2) 1 1 none none ≠
      divBySumAxisNeg2 (sinkhornIterate ((fun _ _ => 0) : Mat 1 2) 1 1 none none) := by
  intro h
  have h00 := congrFun (congrFun h 0) 0
  have hit : sinkhornIterate ((fun _ _ => 0) : Mat 1 2) 1 1 none none =
      colStep (colMarginal none) (rowStep (rowMarginal none)
        (globalNormalize (expCost ((fun _ _ => 0) : Mat 1 2) 1))) := rfl
  simp only [sinkhorn, hit, rowNormalize, divBySumAxisNeg2, colStep, rowStep, rowMarginal,
    colMarginal, globalNormalize, expCost] at h00
  norm_num [Fin.sum_univ_two, Fin.sum_univ_one, Real.exp_zero] at h00

/-- C5: compute_mse_similarities fails with an InvalidArgumentError carrying
the allowed set exactly when the reduction keyword is not one of the six
allowed strings, and succeeds on every allowed keyword. -/
theorem compute_mse_similarities_reduction_check
    (m n : ℕ) (a b c d : QMat m n) (red : String) :
    (compute_mse_similarities a b c d red =
        Except.error (MseErr.invalidArgument REDUCTIONS red) ↔ red ∉ REDUCTIONS) ∧
    ((∃ e, compute_mse_similarities a b c d red = Except.error e) ↔ red ∉ REDUCTIONS) := by
  by_cases h : red ∈ REDUCTIONS
  · have hok : ∃ out, compute_mse_similarities a b c d red = Except.ok out := by
      unfold compute_mse_similarities
      rw [if_neg (by simpa using h)]
      dsimp only
      repeat' split
      all_goals exact ⟨_, rfl⟩
    obtain ⟨out, hout⟩ := hok
    rw [hout]
    simp [h]
  · have herr : compute_mse_similarities a b c d red =
        Except.error (MseErr.invalidArgument REDUCTIONS red) := by
      unfold compute_mse_similarities
      rw [if_pos h]
    rw [herr]
    exact ⟨by simp [h], by simp [h]⟩

/-- C6: for every quadruple of similarity matrices, the "sum" and "add"
reductions of compute_mse_similarities return the arithmetic mean of the
3-element MSE vector, the same value as the "mean" reduction; at a concrete
input the returned value differs from the sum of the vector's elements. -/
theorem compute_mse_similarities_sum_branch_is_mean :
    (∀ (m n : ℕ) (a b c d : QMat m n),
      compute_mse_similarities a b c d redSum = compute_mse_similarities a b c d redMean ∧
      compute_mse_similarities a b c d redAdd = compute_mse_similarities a b c d redMean ∧
      compute_mse_similarities a b c d redMean =
        Except.ok (MseOut.scalar ((mseLoss a d + mseLoss b d + mseLoss c d) / 3))) ∧
    compute_mse_similarities ((fun _ _ => 2) : QMat 1 1) (fun _ _ => 0) (fun _ _ => 0)
        (fun _ _ => 0) redSum ≠
      Except.ok (MseOut.scalar (mseLoss ((fun _ _ => 2) : QMat 1 1) (fun _ _ => 0) +
        mseLoss ((fun _ _ => 0) : QMat 1 1) (fun _ _ => 0) +
        mseLoss ((fun _ _ => 0) : QMat 1 1) (fun _ _ => 0))) := by
  have hmain : ∀ (m n : ℕ) (a b c d : QMat m n),
      compute_mse_similarities a b c d redSum =
        Except.ok (MseOut.scalar ((mseLoss a d + mseLoss b d + mseLoss c d) / 3)) ∧
      compute_mse_similarities a b c d redAdd =
        Except.ok (MseOut.scalar ((mseLoss a d + mseLoss b d + mseLoss c d) / 3)) ∧
      compute_mse_similarities a b c d redMean =
        Except.ok (MseOut.scalar ((mseLoss a d + mseLoss b d + mseLoss c d) / 3)) := by
    intro m n a b c d
    refine ⟨?_, ?_, ?_⟩ <;>
      simp [compute_mse_similarities, REDUCTIONS, redSum, redMean, redAverage, redAvg, redAdd,
        redNone, Fin.sum_univ_three]
  constructor
  · intro m n a b c d
    refine ⟨?_, ?_, (hmain m n a b c d).2.2⟩
    · rw [(hmain m n a b c d).1, (hmain m n a b c d).2.2]
    · rw [(hmain m n a b c d).2.1, (hmain m n a b c d).2.2]
  · intro h
    rw [(hmain 1 1 (fun _ _ => 2) (fun _ _ => 0) (fun _ _ => 0) (fun _ _ => 0)).1] at h
    simp only [Except.ok.injEq, MseOut.scalar.injEq] at h
    norm_num [mseLoss, Fin.sum_univ_one] at h

/-- C7: compute_accuracy returns (acc_i + acc_t) / 2 / batch_size with the
identity permutation as ground truth, acc_i counting rows whose argmax equals
the row index and acc_t counting columns whose argmax over rows equals the
column index; on the 4×4 identity logits with batch_size 4 it returns 1, and
on the 4×4 reversed-diagonal logits it returns 0. -/
theorem compute_accuracy_formula_and_instances :
    (∀ (k : ℕ) (L : Fin (k + 1) → Fin (k + 1) → ℚ) (bs : ℚ),
      compute_accuracy L bs =
        (((Finset.univ.filter fun i => argmax (fun j => L i j) = i).card : ℚ) +
          ((Finset.univ.filter fun j => argmax (fun i => L i j) = j).card : ℚ)) / 2 / bs) ∧
    compute_accuracy (fun i j : Fin 4 => if i = j then (1 : ℚ) else 0) 4 = 1 ∧
    compute_accuracy (fun i j : Fin 4 => if (i : ℕ) + (j : ℕ) = 3 then (1 : ℚ) else 0) 4 = 0 := by
  have hI1 : (Finset.univ.filter fun i : Fin 4 =>
      argmax (fun j => if i = j then (1 : ℚ) else 0) = i).card = 4 := by decide
  have hI2 : (Finset.univ.filter fun j : Fin 4 =>
      argmax (fun i => if i = j then (1 : ℚ) else 0) = j).card = 4 := by decide
  have hR1 : (Finset.univ.filter fun i : Fin 4 =>
      argmax (fun j => if (i : ℕ) + (j : ℕ) = 3 then (1 : ℚ) else 0) = i).card = 0 := by decide
  have hR2 : (Finset.univ.filter fun j : Fin 4 =>
      argmax (fun i => if (i : ℕ) + (j : ℕ) = 3 then (1 : ℚ) else 0) = j).card = 0 := by decide
  refine ⟨fun k L bs => rfl, ?_, ?_⟩
  · simp only [compute_accuracy]
    rw [hI1, hI2]
    norm_num
  · simp only [compute_accuracy]
    rw [hR1, hR2]
    norm_num
